import Mathlib

/-!
Shallow embedding of the CSSOM live-view layer implemented in
`src/node/src/stylesheet.rs`.

The Rust code maintains a single owned rule tree (a `StyleSheet` whose grouping
rules own nested `Vec`s of child rules), shared `Vec` references into that tree
(`RuleListReference`), per-list identity caches (`CSSRuleList::rules`), and rule
handles (`CSSRule`) that are either `Connected` (a list reference plus an index)
or `Disconnected` (an owned deep snapshot).

The embedding models the object graph explicitly:
- every live backing vector (the top-level rule sequence and each grouping or
  keyframes rule's child sequence) is one entry of a `Store`, addressed by an
  index, which plays the role of the raw `&'static mut Vec` captured by
  `share_with` — captured once and never re-resolved, exactly like the source;
- `SheetState` is the whole object graph: the store, the heap of `CSSRule`
  handles, the heap of `CSSRuleList` objects, and the stylesheet's cached
  top-level list;
- fallible operations return `Except Fault _`, where `Fault.jsError _` models a
  `napi::Error` returned to the caller, and `Fault.panic` models an actual Rust
  panic (an `.unwrap()` on a parse error, an out-of-range slice `&v[i..]`, an
  out-of-range `Vec::remove` or index).

The external CSS engine (`parcel_css` parsing/serialization) is out of scope of
the source file; it enters only through an abstract `Engine` of parse functions
and abstract serialization parameters, as the spec describes in its §6.
-/

namespace CssOm

universe u

variable {α : Type u}

/-- In-place update of the element at position `i`, modelling mutation through a
mutable reference; out-of-range positions are untouched. -/
def modifyAt : List α → Nat → (α → α) → List α
  | [], _, _ => []
  | a :: l, 0, f => f a :: l
  | a :: l, n + 1, f => a :: modifyAt l n f

/-- `Vec::insert(i, a)`, defined for `i ≤ length` (the callers check bounds
before using it, as the source does). -/
def insertAt : List α → Nat → α → List α
  | l, 0, a => a :: l
  | [], _ + 1, a => [a]
  | b :: l, n + 1, a => b :: insertAt l n a

/-- `Vec::remove(i)` without its result, defined for `i < length` (the callers
check bounds before using it). -/
def removeAt : List α → Nat → List α
  | [], _ => []
  | _ :: l, 0 => l
  | b :: l, n + 1 => b :: removeAt l n

/-- `Vec::resize_with(n, || None)` as performed by `CSSRuleList::item`: grow the
identity cache with empty slots so that slot `n - 1` exists. -/
def padTo (l : List (Option Nat)) (n : Nat) : List (Option Nat) :=
  if l.length < n then l ++ List.replicate (n - l.length) none else l

/-- `Iterator::position`: index of the first element satisfying `p`. -/
def position (p : α → Bool) : List α → Option Nat
  | [] => none
  | a :: l => if p a then some 0 else (position p l).map (· + 1)

/-- A keyframe (`Keyframe` in the source): a list of keyframe selectors (opaque
values, abstracted as `Nat`) plus an opaque declaration block. -/
structure DKeyframe where
  selectors : List Nat
  decls : String

/-- A deep, owned rule value (`CssRule` in the source), as captured by `.clone()`
when a handle is disconnected.  Selector lists, declaration blocks and
conditions are opaque payloads produced by the external engine. -/
inductive DRule where
  | style (sel : String) (decls : String)
  | media (cond : String) (children : List DRule)
  | supports (cond : String) (children : List DRule)
  | keyframes (name : String) (kfs : List DKeyframe)
  | other (payload : String)

/-- A node as it sits inside one backing vector of the live tree.  Grouping and
keyframes nodes do not carry their children inline: they carry the store index
of the child vector they own, mirroring that in Rust those children live in a
separate `Vec` that nested `RuleListReference`s point into. -/
inductive SNode where
  | style (sel : String) (decls : String)
  | media (cond : String) (children : Nat)
  | supports (cond : String) (children : Nat)
  | keyframes (name : String) (body : Nat)
  | keyframe (k : DKeyframe)
  | other (payload : String)

/-- One backing vector of the tree. -/
abbrev Seq := List SNode

/-- All live backing vectors; a store index models a captured `&'static mut Vec`. -/
abbrev Store := List Seq

/-- `RuleOrKeyframe`: the owned snapshot held by a disconnected handle. -/
inductive NodeVal where
  | rule (r : DRule)
  | keyframe (k : DKeyframe)

/-- Keyframes bodies are `Vec<Keyframe>` in Rust, so every entry of such a store
sequence is a `SNode.keyframe`; this extracts the typed view. -/
def extractKeyframes : List SNode → Option (List DKeyframe)
  | [] => some []
  | .keyframe k :: rest => (extractKeyframes rest).map (fun ks => k :: ks)
  | _ :: _ => none

/-- Deep resolution of a stored node, modelling `CssRule::clone()`: grouping
nodes pull their child vector out of the store recursively.  `fuel` bounds the
depth of the descent; all operations pass the store size, which suffices for
every store built by the operations below. -/
def resolveSN : Nat → Store → SNode → Option DRule
  | _, _, .style s d => some (.style s d)
  | _, _, .other p => some (.other p)
  | _, _, .keyframe _ => none
  | _, store, .keyframes n bid =>
    match store.get? bid with
    | none => none
    | some body => (extractKeyframes body).map (fun kfs => .keyframes n kfs)
  | 0, _, .media _ _ => none
  | 0, _, .supports _ _ => none
  | fuel + 1, store, .media c cid =>
    match store.get? cid with
    | none => none
    | some children =>
      (children.foldr
        (fun sn acc =>
          match resolveSN fuel store sn, acc with
          | some r, some rs => some (r :: rs)
          | _, _ => none)
        (some [])).map (fun rs => .media c rs)
  | fuel + 1, store, .supports c cid =>
    match store.get? cid with
    | none => none
    | some children =>
      (children.foldr
        (fun sn acc =>
          match resolveSN fuel store sn, acc with
          | some r, some rs => some (r :: rs)
          | _, _ => none)
        (some [])).map (fun rs => .supports c rs)

/-- Deep resolution of a whole child vector (the traversal inlined in the
grouping cases of `resolveSN`). -/
def resolveSeq (fuel : Nat) (store : Store) (l : List SNode) : Option (List DRule) :=
  l.foldr
    (fun sn acc =>
      match resolveSN fuel store sn, acc with
      | some r, some rs => some (r :: rs)
      | _, _ => none)
    (some [])

/-- Deep resolution producing the `RuleOrKeyframe` snapshot a disconnecting
handle captures. -/
def resolveNode (fuel : Nat) (store : Store) (sn : SNode) : Option NodeVal :=
  match sn with
  | .keyframe k => some (.keyframe k)
  | _ => (resolveSN fuel store sn).map NodeVal.rule

/-- Flatten one parsed (deep) rule into store form.  `base` is the current store
size; the returned list is the freshly created child vectors, to be appended to
the store, and child store indices are assigned from `base` upwards.  This
models the parser handing over ownership of the nested `Vec`s of a freshly
parsed rule. -/
def allocRule : Nat → DRule → (List Seq × SNode)
  | _, .style s d => ([], .style s d)
  | _, .other p => ([], .other p)
  | base, .media c children =>
    let p := goList base children
    (p.1 ++ [p.2], .media c (base + p.1.length))
  | base, .supports c children =>
    let p := goList base children
    (p.1 ++ [p.2], .supports c (base + p.1.length))
  | base, .keyframes n kfs =>
    ([kfs.map SNode.keyframe], .keyframes n base)
where
  goList : Nat → List DRule → (List Seq × List SNode)
    | _, [] => ([], [])
    | base, r :: rest =>
      let p := allocRule base r
      let q := goList (base + p.1.length) rest
      (p.1 ++ q.1, p.2 :: q.2)

/-- Flatten a parsed rule list into store form. -/
def allocRuleList (base : Nat) (rs : List DRule) : (List Seq × List SNode) :=
  allocRule.goList base rs

/-- `RuleInner`: a handle is connected (a captured list reference plus an
index) or disconnected (an owned snapshot). -/
inductive RuleInner where
  | connected (ruleList : Nat) (index : Nat)
  | disconnected (snapshot : NodeVal)

/-- The `CSSRule` object (together with its kind-specific wrapper).  The
`parent_stylesheet` reference always points at the single stylesheet of the
model and is omitted; `childList` is the wrapper's cached nested `CSSRuleList`
(`CSSGroupingRule::rules` / `CSSKeyframesRule::rules`). -/
structure HRule where
  inner : RuleInner
  parentRule : Option Nat
  childList : Option Nat

/-- The `CSSRuleList` object: the captured backing-vector reference, the
identity cache `rules : Vec<Option<Ref>>` (slot `i` holds the handle id
materialized for index `i`), and the parent rule link. -/
structure HList where
  ruleList : Nat
  cache : List (Option Nat)
  parentRule : Option Nat

/-- The whole object graph reachable from one `CSSStyleSheet`. -/
structure SheetState where
  store : Store
  topSeq : Nat
  handles : List HRule
  lists : List HList
  topList : Option Nat

/-- Outcome of a fallible call: a `napi::Error` surfaced to JavaScript, or a
Rust panic. -/
inductive Fault where
  | jsError (msg : String)
  | panic

/-- The external CSS engine (out of scope of the source file): parsing entry
points used by the modelled operations. -/
structure Engine where
  parseRule : String → Option DRule
  parseSheet : String → Option (List DRule)
  parseKeyframeSelectors : String → Option (List Nat)

/-- `RuleInner::disconnect`: capture a deep snapshot of the currently addressed
node.  Out-of-range indexing of the backing storage is a panic (`None`). -/
def disconnectInner (store : Store) : RuleInner → Option RuleInner
  | .connected s k =>
    match store.get? s with
    | none => none
    | some seq =>
      match seq.get? k with
      | none => none
      | some sn => (resolveNode store.length store sn).map RuleInner.disconnected
  | .disconnected v => some (.disconnected v)

/-- One index-shift applied to a connected handle (`*index += 1` or
`*index -= 1` in the source). -/
def bumpConnected (up : Bool) (h : HRule) : HRule :=
  match h.inner with
  | .connected s k => { h with inner := .connected s (if up then k + 1 else k - 1) }
  | .disconnected _ => h

/-- The cache-shift loops of `insert_rule` / `CSSRuleList::delete_rule`: walk a
range of identity-cache slots and shift each materialized handle's stored
index. -/
def shiftSlots (handles : List HRule) (slots : List (Option Nat)) (up : Bool) : List HRule :=
  match slots with
  | [] => handles
  | none :: rest => shiftSlots handles rest up
  | some hid :: rest => shiftSlots (modifyAt handles hid (bumpConnected up)) rest up

/-- The state after the fresh-materialization path of `CSSRuleList::item`
appended a connected handle (id `st.handles.length`) and cached it at slot
`index`. -/
def listItemFreshState (st : SheetState) (lid : Nat) (L : HList) (index : Nat) :
    SheetState :=
  { st with
    handles := st.handles ++
      [{ inner := .connected L.ruleList index, parentRule := L.parentRule,
         childList := none }],
    lists := st.lists.set lid
      { L with cache := (padTo L.cache (index + 1)).set index (some st.handles.length) } }

/-- The fresh-materialization path of `CSSRuleList::item`: build a `Connected`
handle, grow the cache, store the reference.  (When the index is out of range
the source returns JS `null`; the reference it still stores for the null value
is never used by the modelled properties and is not recorded.) -/
def listItemFresh (st : SheetState) (lid : Nat) (L : HList) (index : Nat) :
    Except Fault (Option Nat × SheetState) :=
  match st.store.get? L.ruleList with
  | none => .error .panic
  | some seq =>
    match seq.get? index with
    | none => .ok (none, st)
    | some _ => .ok (some st.handles.length, listItemFreshState st lid L index)

/-- `CSSRuleList::item`: return the cached handle when the slot is populated,
otherwise materialize (and cache) a fresh connected handle. -/
def listItem (st : SheetState) (lid index : Nat) : Except Fault (Option Nat × SheetState) :=
  match st.lists.get? lid with
  | none => .error .panic
  | some L =>
    match L.cache.get? index with
    | some (some hid) => .ok (some hid, st)
    | some none => listItemFresh st lid L index
    | none => listItemFresh st lid L index

/-- `CSSStyleSheet::css_rules`: create (once, cached thereafter) the top-level
`CSSRuleList` over the stylesheet's rule vector. -/
def sheetCssRules (st : SheetState) : Nat × SheetState :=
  match st.topList with
  | some lid => (lid, st)
  | none =>
    let lid := st.lists.length
    (lid,
      { st with
        lists := st.lists ++ [{ ruleList := st.topSeq, cache := [], parentRule := none }],
        topList := some lid })

/-- The child vector owned by a grouping or keyframes node. -/
def childSeqId : SNode → Option Nat
  | .media _ cid => some cid
  | .supports _ cid => some cid
  | .keyframes _ bid => some bid
  | _ => none

/-- `CSSGroupingRule::css_rules` / `CSSKeyframesRule::css_rules` (they differ
only in which child vector is captured): create once, cached thereafter, a
nested `CSSRuleList` whose backing reference is the child vector of the node
the handle currently addresses.  The reference is captured here and never
re-resolved, exactly like `share_with` in the source.  A disconnected handle
would share the snapshot's owned child vector; that state is not exercised by
the verified properties and is left unmodelled. -/
def ruleCssRules (st : SheetState) (hid : Nat) : Except Fault (Nat × SheetState) :=
  match st.handles.get? hid with
  | none => .error .panic
  | some h =>
    match h.childList with
    | some lid => .ok (lid, st)
    | none =>
      match h.inner with
      | .disconnected _ => .error .panic
      | .connected s k =>
        match st.store.get? s with
        | none => .error .panic
        | some seq =>
          match seq.get? k with
          | none => .error .panic
          | some sn =>
            match childSeqId sn with
            | none => .error .panic
            | some cid =>
              let lid := st.lists.length
              .ok (lid,
                { st with
                  lists := st.lists ++
                    [{ ruleList := cid, cache := [], parentRule := some hid }],
                  handles := modifyAt st.handles hid
                    (fun h0 => { h0 with childList := some lid }) })

/-- `CSSRuleList::delete_rule` (the identity-cache half of rule removal):
disconnect the handle materialized at `index` (clearing its parent link), shift
every later materialized handle's index down by one, and drop the cache slot.
A cache shorter than `index` skips all of it. -/
def cssRuleListDeleteRule (st : SheetState) (lid index : Nat) : Except Fault SheetState :=
  match st.lists.get? lid with
  | none => .error .panic
  | some L =>
    if index < L.cache.length then
      let step : Except Fault SheetState :=
        match L.cache.get? index with
        | some (some hid) =>
          match st.handles.get? hid with
          | none => .error .panic
          | some h =>
            match disconnectInner st.store h.inner with
            | none => .error .panic
            | some inner' =>
              .ok { st with
                handles := modifyAt st.handles hid
                  (fun h0 => { h0 with inner := inner', parentRule := none }) }
        | _ => .ok st
      match step with
      | .error f => .error f
      | .ok st1 =>
        .ok { st1 with
          handles := shiftSlots st1.handles (L.cache.drop (index + 1)) false,
          lists := st1.lists.set lid { L with cache := removeAt L.cache index } }
    else .ok st

/-- The free function `delete_rule`: bounds check (`index > len` — note: not
`≥` — is rejected), run the identity-cache half, then `Vec::remove`, which
panics when `index` equals the length. -/
def delete_rule (st : SheetState) (sid : Nat) (lid? : Option Nat) (index : Nat) :
    Except Fault SheetState :=
  match st.store.get? sid with
  | none => .error .panic
  | some seq =>
    if index > seq.length then .error (.jsError ("Index out of bounds"))
    else
      let step : Except Fault SheetState :=
        match lid? with
        | none => .ok st
        | some lid => cssRuleListDeleteRule st lid index
      match step with
      | .error f => .error f
      | .ok st1 =>
        if index < seq.length then
          .ok { st1 with store := st1.store.set sid (removeAt seq index) }
        else .error .panic

/-- The free function `insert_rule`: bounds check, parse (`.unwrap()` — a parse
failure panics), shift the identity-cache slots from `index` on (the slice
`&rules.rules[index..]` panics when the cache is shorter than `index`), insert
an empty cache slot, insert the parsed node. -/
def insert_rule (eng : Engine) (st : SheetState) (sid : Nat) (lid? : Option Nat)
    (ruleText : String) (index? : Option Nat) : Except Fault (Nat × SheetState) :=
  match st.store.get? sid with
  | none => .error .panic
  | some seq =>
    let index := index?.getD 0
    if index > seq.length then .error (.jsError ("Index out of bounds"))
    else
      match eng.parseRule ruleText with
      | none => .error .panic
      | some dr =>
        let p := allocRule st.store.length dr
        let st1 : SheetState := { st with store := st.store ++ p.1 }
        match lid? with
        | none =>
          .ok (index, { st1 with store := st1.store.set sid (insertAt seq index p.2) })
        | some lid =>
          match st1.lists.get? lid with
          | none => .error .panic
          | some L =>
            if index > L.cache.length then .error .panic
            else
              let st2 : SheetState :=
                { st1 with
                  handles := shiftSlots st1.handles (L.cache.drop index) true,
                  lists := st1.lists.set lid { L with cache := insertAt L.cache index none } }
              .ok (index, { st2 with store := st2.store.set sid (insertAt seq index p.2) })

/-- `CSSStyleSheet::insert_rule`. -/
def sheetInsertRule (eng : Engine) (st : SheetState) (ruleText : String)
    (index? : Option Nat) : Except Fault (Nat × SheetState) :=
  insert_rule eng st st.topSeq st.topList ruleText index?

/-- `CSSStyleSheet::delete_rule`. -/
def sheetDeleteRule (st : SheetState) (index : Nat) : Except Fault SheetState :=
  delete_rule st st.topSeq st.topList index

/-- The disconnect loop of `CSSStyleSheet::replace_sync`: walk the top-level
identity cache and force every materialized handle to `Disconnected`, each with
a deep clone of `self.stylesheet.rules.0[slot]`.  Parent links and the cache
itself are left as they are, like in the source. -/
def disconnectSlots : SheetState → List (Option Nat) → Nat → Except Fault SheetState
  | st, [], _ => .ok st
  | st, none :: rest, i => disconnectSlots st rest (i + 1)
  | st, some hid :: rest, i =>
    match st.store.get? st.topSeq with
    | none => .error .panic
    | some seq =>
      match seq.get? i with
      | none => .error .panic
      | some sn =>
        match resolveSN st.store.length st.store sn with
        | none => .error .panic
        | some r =>
          disconnectSlots
            { st with
              handles := modifyAt st.handles hid
                (fun h => { h with inner := .disconnected (.rule r) }) }
            rest (i + 1)

/-- The tail of `replace_sync`: parse the new text (`.unwrap()` — a parse
failure panics) and install the new tree in place: the top-level vector keeps
its identity (the `SharedReference` into `stylesheet.rules.0` still addresses
it), its contents are replaced, and the freshly parsed nested vectors are added
to the store. -/
def replaceFinish (eng : Engine) (st : SheetState) (code : String) : Except Fault SheetState :=
  match eng.parseSheet code with
  | none => .error .panic
  | some rs =>
    let p := allocRuleList st.store.length rs
    .ok { st with store := (st.store ++ p.1).set st.topSeq p.2 }

/-- `CSSStyleSheet::replace_sync`: disconnect every handle cached in the
top-level rule list (if that list was ever materialized), then parse and
install the new tree.  Nested rule lists and their handles are not visited. -/
def replaceSync (eng : Engine) (st : SheetState) (code : String) : Except Fault SheetState :=
  match st.topList with
  | none => replaceFinish eng st code
  | some lid =>
    match st.lists.get? lid with
    | none => .error .panic
    | some L =>
      match disconnectSlots st L.cache 0 with
      | .error f => .error f
      | .ok st1 => replaceFinish eng st1 code

/-- The typed keyframes view used by `CSSKeyframesRule`: the `Vec<Keyframe>` of
the rule the handle currently addresses (or of its snapshot), or the
"Not an @keyframes rule" error. -/
def keyframesOf (st : SheetState) : RuleInner → Except Fault (List DKeyframe)
  | .connected s k =>
    match st.store.get? s with
    | none => .error .panic
    | some seq =>
      match seq.get? k with
      | none => .error .panic
      | some sn =>
        match sn with
        | .keyframes _ bid =>
          match st.store.get? bid with
          | none => .error .panic
          | some body =>
            match extractKeyframes body with
            | none => .error .panic
            | some kfs => .ok kfs
        | _ => .error (.jsError ("Not an @keyframes rule"))
  | .disconnected (.rule (.keyframes _ kfs)) => .ok kfs
  | .disconnected _ => .error (.jsError ("Not an @keyframes rule"))

/-- `CSSKeyframesRule::find_index`: parse the selector text (a parse failure is
"not found"), then scan the keyframes from the back for the last one whose
selector list equals the parsed list (`iter().rev().position`). -/
def find_index (eng : Engine) (st : SheetState) (hid : Nat) (select : String) :
    Except Fault (Option Nat) :=
  match eng.parseKeyframeSelectors select with
  | none => .ok none
  | some parsed =>
    match st.handles.get? hid with
    | none => .error .panic
    | some h =>
      match keyframesOf st h.inner with
      | .error f => .error f
      | .ok kfs =>
        match position (fun k => k.selectors == parsed) kfs.reverse with
        | some ridx => .ok (some (kfs.length - 1 - ridx))
        | none => .ok none

/-- `CSSKeyframesRule::find_rule`: `find_index`, then `css_rules.item(i)` on a
match, JS `null` otherwise. -/
def find_rule (eng : Engine) (st : SheetState) (hid : Nat) (select : String) :
    Except Fault (Option Nat × SheetState) :=
  match find_index eng st hid select with
  | .error f => .error f
  | .ok none => .ok (none, st)
  | .ok (some index) =>
    match ruleCssRules st hid with
    | .error f => .error f
    | .ok (lid, st1) => listItem st1 lid index

/-- `JSMediaList::append_medium`: parse the medium (a parse failure is silently
ignored), skip if the parsed query is already present, push otherwise.  Media
queries are opaque values with decidable equality, abstracted as `Nat`. -/
def append_medium (parseQuery : String → Option Nat) (queries : List Nat)
    (medium : String) : List Nat :=
  match parseQuery medium with
  | none => queries
  | some q => if q ∈ queries then queries else queries ++ [q]

/-- Observation: the state of a handle. -/
def handleInner (st : SheetState) (hid : Nat) : Option RuleInner :=
  (st.handles.get? hid).map (fun h => h.inner)

/-- Observation: the parent rule link of a handle. -/
def handleParentRule (st : SheetState) (hid : Nat) : Option (Option Nat) :=
  (st.handles.get? hid).map (fun h => h.parentRule)

/-- `CSSRule::parent_style_sheet` returns the stylesheet while the handle is
connected and JS `null` once it is disconnected; this observation records
whether the result is non-null. -/
def parentStyleSheetNonNull (st : SheetState) (hid : Nat) : Option Bool :=
  (st.handles.get? hid).map (fun h =>
    match h.inner with
    | .connected _ _ => true
    | .disconnected _ => false)

/-- `CSSRule::css_text`: serialize the node the handle addresses (through live
storage while connected, from the snapshot once disconnected), for an abstract
serialization function `ser`. -/
def handleCssText (ser : NodeVal → String) (st : SheetState) (hid : Nat) : Option String :=
  match st.handles.get? hid with
  | none => none
  | some h =>
    match h.inner with
    | .disconnected v => some (ser v)
    | .connected s k =>
      match st.store.get? s with
      | none => none
      | some seq =>
        match seq.get? k with
        | none => none
        | some sn => (resolveNode st.store.length st.store sn).map ser

/-- Observation of a `find_rule` call: `none` when JS `null` was returned,
otherwise the state of the returned handle. -/
def findRuleObs (eng : Engine) (st : SheetState) (hid : Nat) (select : String) :
    Except Fault (Option (Option RuleInner)) :=
  match find_rule eng st hid select with
  | .error f => .error f
  | .ok (none, _) => .ok none
  | .ok (some h2, st2) => .ok (some (handleInner st2 h2))

/-- Well-formedness of one materialized `CSSRuleList`, as the operations
maintain it: the identity cache is no longer than the backing vector, and the
handle cached at slot `j` is connected to this list's backing vector at index
`j`. -/
def listWFb (st : SheetState) (lid : Nat) : Bool :=
  match st.lists.get? lid with
  | none => false
  | some L =>
    (match st.store.get? L.ruleList with
      | some seq => decide (L.cache.length ≤ seq.length)
      | none => false)
    && (List.range L.cache.length).all (fun j =>
        match L.cache.get? j with
        | some (some hid) =>
          match st.handles.get? hid with
          | some h =>
            match h.inner with
            | .connected s k => s == L.ruleList && k == j
            | .disconnected _ => false
          | none => false
        | _ => true)

/-- The node a cache slot addresses deep-resolves (true for every store the
operations build: the store's ownership graph is acyclic). -/
def slotResolvable (st : SheetState) (sid j : Nat) : Bool :=
  (((st.store.get? sid).bind (fun s => s.get? j)).bind
    (fun sn => resolveSN st.store.length st.store sn)).isSome

/-- Every populated slot of a cache deep-resolves against its backing vector. -/
def cacheResolvable (st : SheetState) (sid : Nat) (cache : List (Option Nat)) : Bool :=
  (List.range cache.length).all (fun j =>
    match cache.get? j with
    | some (some _) => slotResolvable st sid j
    | _ => true)

/-- Whether a handle id appears in an identity cache. -/
def cacheMentions (cache : List (Option Nat)) (hid : Nat) : Bool :=
  cache.any (fun o => o == some hid)

/-- `j` is the highest index whose keyframe's selector list equals `parsed`. -/
def isLastMatch (kfs : List DKeyframe) (parsed : List Nat) (j : Nat) : Bool :=
  (match kfs.get? j with
    | some kf => kf.selectors == parsed
    | none => false)
  && (List.range kfs.length).all (fun q =>
      decide (q ≤ j) ||
        (match kfs.get? q with
          | some kf => !(kf.selectors == parsed)
          | none => true))

/-- If a keyframes handle has already materialized its nested rule list, that
list is the well-formed list over the keyframes body `bid`. -/
def childStateOk (st : SheetState) (h : HRule) (bid : Nat) : Prop :=
  match h.childList with
  | none => True
  | some lid => ∃ L, st.lists.get? lid = some L ∧ L.ruleList = bid ∧ listWFb st lid = true

/-- Fixture: stylesheet `.a / .b` with the top-level list and both handles
materialized (`cssRules`, `item(0)`, `item(1)`). -/
def flatSt : SheetState :=
  { store := [[SNode.style (".a") ("color:red"), SNode.style (".b") ("color:blue")]]
  , topSeq := 0
  , handles :=
      [ { inner := .connected 0 0, parentRule := none, childList := none }
      , { inner := .connected 0 1, parentRule := none, childList := none } ]
  , lists := [{ ruleList := 0, cache := [some 0, some 1], parentRule := none }]
  , topList := some 0 }

/-- Fixture: stylesheet `.a / .b` where only `item(0)` was ever called, so the
identity cache has a single slot. -/
def shortCacheSt : SheetState :=
  { store := [[SNode.style (".a") ("color:red"), SNode.style (".b") ("color:blue")]]
  , topSeq := 0
  , handles := [{ inner := .connected 0 0, parentRule := none, childList := none }]
  , lists := [{ ruleList := 0, cache := [some 0], parentRule := none }]
  , topList := some 0 }

/-- Fixture: one-rule stylesheet whose `cssRules` was never accessed. -/
def oneRuleSt : SheetState :=
  { store := [[SNode.style (".a") ("color:red")]]
  , topSeq := 0
  , handles := []
  , lists := []
  , topList := none }

/-- Fixture: one-rule stylesheet with the top-level list materialized but no
handle observed yet. -/
def freshListSt : SheetState :=
  { store := [[SNode.style (".a") ("color:red")]]
  , topSeq := 0
  , handles := []
  , lists := [{ ruleList := 0, cache := [], parentRule := none }]
  , topList := some 0 }

/-- The state after `item(0)` on `freshListSt` (used to restate the first call
of the identity-stability witness without spelling the record out). -/
def freshListStAfter : SheetState :=
  match listItem freshListSt 0 0 with
  | .ok (_, s) => s
  | .error _ => freshListSt

/-- Fixture: stylesheet `@media screen ( .a )` with the grouping handle (id 0),
its nested rule list (list id 1) and the nested style handle (id 1) all
materialized — the run `cssRules`, `item(0)`, `.cssRules`, `item(0)`. -/
def nestedSt : SheetState :=
  { store := [[SNode.style (".a") ("color:red")], [SNode.media ("screen") 0]]
  , topSeq := 1
  , handles :=
      [ { inner := .connected 1 0, parentRule := none, childList := some 1 }
      , { inner := .connected 0 0, parentRule := some 0, childList := none } ]
  , lists :=
      [ { ruleList := 1, cache := [some 0], parentRule := none }
      , { ruleList := 0, cache := [some 1], parentRule := some 0 } ]
  , topList := some 0 }

/-- Fixture: an `@keyframes` rule whose body holds two keyframes keyed `[50]`
(with different declarations) and one keyed `[100]`; the keyframes handle is
id 0 and its nested list is not materialized yet. -/
def kfSt : SheetState :=
  { store :=
      [ [ SNode.keyframe { selectors := [50], decls := ("color:red") }
        , SNode.keyframe { selectors := [50], decls := ("color:blue") }
        , SNode.keyframe { selectors := [100], decls := ("color:green") } ]
      , [SNode.keyframes ("anim") 0] ]
  , topSeq := 1
  , handles := [{ inner := .connected 1 0, parentRule := none, childList := none }]
  , lists := []
  , topList := none }

/-- The three keyframes of `kfSt` as typed values. -/
def kfList : List DKeyframe :=
  [ { selectors := [50], decls := ("color:red") }
  , { selectors := [50], decls := ("color:blue") }
  , { selectors := [100], decls := ("color:green") } ]

/-- An engine that rejects everything, for the parse-failure scenarios. -/
def engReject : Engine :=
  { parseRule := fun _ => none
  , parseSheet := fun _ => none
  , parseKeyframeSelectors := fun _ => none }

/-- An engine that accepts everything as a fixed style rule / one-rule sheet. -/
def engAccept : Engine :=
  { parseRule := fun _ => some (.style (".c") ("color:green"))
  , parseSheet := fun _ => some [.style (".z") ("color:black")]
  , parseKeyframeSelectors := fun _ => none }

/-- An engine whose keyframe-selector parser accepts exactly `50%`. -/
def engKeyframes : Engine :=
  { parseRule := fun _ => none
  , parseSheet := fun _ => none
  , parseKeyframeSelectors := fun s => if s = ("50%") then some [50] else none }

/-- A sample media-query parser: rejects the empty string, maps `screen` to
query 1 and anything else to query 2. -/
def mediaParse : String → Option Nat :=
  fun s => if s = ("") then none else if s = ("screen") then some 1 else some 2

/-- A sample serialization function for the concrete witnesses. -/
def serSample : NodeVal → String :=
  fun v =>
    match v with
    | .rule (.style sel decls) => sel ++ decls
    | .rule _ => ("at-rule")
    | .keyframe k => k.decls

theorem modifyAt_get?_self (l : List α) (i : Nat) (f : α → α) :
    (modifyAt l i f).get? i = (l.get? i).map f := by
  induction l generalizing i with
  | nil => simp [modifyAt]
  | cons a l ih =>
    cases i with
    | zero => simp [modifyAt]
    | succ n => simpa [modifyAt] using ih n

theorem modifyAt_get?_ne (l : List α) {i j : Nat} (f : α → α) (h : j ≠ i) :
    (modifyAt l i f).get? j = l.get? j := by
  induction l generalizing i j with
  | nil => simp [modifyAt]
  | cons a l ih =>
    cases i with
    | zero =>
      cases j with
      | zero => exact absurd rfl h
      | succ m => simp [modifyAt]
    | succ n =>
      cases j with
      | zero => simp [modifyAt]
      | succ m => simpa [modifyAt] using ih (i := n) (j := m) (fun hh => h (by omega))

theorem get?_set_lt (l : List α) (i : Nat) (a : α) (h : i < l.length) :
    (l.set i a).get? i = some a := by
  rw [List.get?_set_eq]
  cases hg : l.get? i with
  | none => rw [List.get?_eq_none] at hg; omega
  | some b => rfl

theorem padTo_le_length (l : List (Option Nat)) (n : Nat) : n ≤ (padTo l n).length := by
  unfold padTo
  split
  next h => simp; omega
  next h => simpa using Nat.le_of_not_lt h

theorem removeAt_length (l : List α) (i : Nat) (h : i < l.length) :
    (removeAt l i).length = l.length - 1 := by
  induction l generalizing i with
  | nil => simp at h
  | cons a l ih =>
    cases i with
    | zero => simp [removeAt]
    | succ n =>
      have hn : n < l.length := by simpa using h
      have := ih n hn
      simp [removeAt, this]
      omega

theorem shiftSlots_get?_not_mem (hs : List HRule) (slots : List (Option Nat)) (up : Bool)
    (hid : Nat) (hnm : ∀ q, slots.get? q ≠ some (some hid)) :
    (shiftSlots hs slots up).get? hid = hs.get? hid := by
  induction slots generalizing hs with
  | nil => simp [shiftSlots]
  | cons o rest ih =>
    cases o with
    | none =>
      rw [shiftSlots]
      exact ih hs (fun q => hnm (q + 1))
    | some hid2 =>
      have hne : hid2 ≠ hid := by
        intro hh
        exact hnm 0 (by simp [hh])
      rw [shiftSlots]
      rw [ih _ (fun q => hnm (q + 1))]
      exact modifyAt_get?_ne hs _ (Ne.symm hne)

theorem shiftSlots_get?_uniq (hs : List HRule) (slots : List (Option Nat)) (up : Bool)
    (hid p : Nat) (hp : slots.get? p = some (some hid))
    (huniq : ∀ q, slots.get? q = some (some hid) → q = p) :
    (shiftSlots hs slots up).get? hid = (hs.get? hid).map (bumpConnected up) := by
  induction slots generalizing hs p with
  | nil => simp at hp
  | cons o rest ih =>
    cases p with
    | zero =>
      have ho : o = some hid := by simpa using hp
      subst ho
      rw [shiftSlots]
      have hrest : ∀ q, rest.get? q ≠ some (some hid) := by
        intro q hq
        exact absurd (huniq (q + 1) (by simpa using hq)) (by omega)
      rw [shiftSlots_get?_not_mem _ _ _ _ hrest]
      exact modifyAt_get?_self hs hid (bumpConnected up)
    | succ n =>
      have hrest : rest.get? n = some (some hid) := by simpa using hp
      have huniq' : ∀ q, rest.get? q = some (some hid) → q = n := by
        intro q hq
        have := huniq (q + 1) (by simpa using hq)
        omega
      cases o with
      | none =>
        rw [shiftSlots]
        exact ih _ n hrest huniq'
      | some hid2 =>
        have hne : hid2 ≠ hid := by
          intro hh
          subst hh
          exact absurd (huniq 0 (by simp)) (by omega)
        rw [shiftSlots]
        rw [ih _ n hrest huniq']
        rw [modifyAt_get?_ne hs _ (Ne.symm hne)]

/-- C10: `appendMedium` silently ignores unparseable media, is a no-op when the
parsed query is already present, and appending the same medium twice equals
appending it once. -/
theorem append_medium_idempotent (parseQuery : String → Option Nat) (queries : List Nat)
    (m1 m2 m3 : String) (q : Nat) (h1 : parseQuery m1 = none)
    (h2 : parseQuery m2 = some q) (h3 : q ∈ queries) :
    append_medium parseQuery queries m1 = queries ∧
      append_medium parseQuery queries m2 = queries ∧
      append_medium parseQuery (append_medium parseQuery queries m3) m3
        = append_medium parseQuery queries m3 := by
  refine ⟨by simp [append_medium, h1], by simp [append_medium, h2, h3], ?_⟩
  unfold append_medium
  cases hp : parseQuery m3 with
  | none => rfl
  | some q3 =>
    by_cases hq : q3 ∈ queries
    · simp [hq]
    · simp [hq]

/-- Witness for C10 at a concrete parser, query list and media. -/
theorem append_medium_idempotent_witness :
    mediaParse ("") = none ∧ mediaParse ("screen") = some 1 ∧ 1 ∈ [1] ∧
      (append_medium mediaParse [1] ("") = [1] ∧
        append_medium mediaParse [1] ("screen") = [1] ∧
        append_medium mediaParse (append_medium mediaParse [1] ("print")) ("print")
          = append_medium mediaParse [1] ("print")) :=
  ⟨rfl, rfl, by decide,
    append_medium_idempotent mediaParse [1] ("") ("screen") ("print") 1 rfl rfl (by decide)⟩

/-- If the fresh-materialization path of `item` produced a handle, a second
`item` call at the same index finds it in the identity cache. -/
theorem listItemFresh_ok (st : SheetState) (lid : Nat) (L : HList) (i hid : Nat)
    (st' : SheetState) (hL : st.lists.get? lid = some L)
    (hf : listItemFresh st lid L i = .ok (some hid, st')) :
    listItem st' lid i = .ok (some hid, st') := by
  unfold listItemFresh at hf
  split at hf
  · exact absurd hf (by simp)
  next seq hseq =>
    split at hf
    next hsn => simp at hf
    next sn hsn =>
      simp only [Except.ok.injEq, Prod.mk.injEq, Option.some.injEq] at hf
      obtain ⟨hhid, hst⟩ := hf
      subst hst
      have hlidlt : lid < st.lists.length := (List.get?_eq_some.mp hL).1
      have hpad : i < (padTo L.cache (i + 1)).length := by
        have := padTo_le_length L.cache (i + 1)
        omega
      unfold listItem listItemFreshState
      simp only
      rw [get?_set_lt _ _ _ hlidlt]
      simp only
      rw [get?_set_lt _ _ _ hpad]
      rw [hhid]

/-- C3: two consecutive `item(index)` calls on the same rule list return the
same handle identity and leave the state unchanged after the first call. -/
theorem item_identity_stable (st st' : SheetState) (lid i hid : Nat)
    (h : listItem st lid i = .ok (some hid, st')) :
    listItem st' lid i = .ok (some hid, st') := by
  unfold listItem at h
  split at h
  · exact absurd h (by simp)
  next L hL =>
    split at h
    next h0 hc =>
      simp only [Except.ok.injEq, Prod.mk.injEq, Option.some.injEq] at h
      obtain ⟨hhid, hst⟩ := h
      subst hst
      subst hhid
      unfold listItem
      simp only [hL, hc]
    next hc => exact listItemFresh_ok st lid L i hid st' hL h
    next hc => exact listItemFresh_ok st lid L i hid st' hL h

theorem listWFb_slot (st : SheetState) (lid : Nat) (L : HList) (j hid : Nat)
    (hw : listWFb st lid = true) (hL : st.lists.get? lid = some L)
    (hj : L.cache.get? j = some (some hid)) :
    ∃ h, st.handles.get? hid = some h ∧ h.inner = .connected L.ruleList j := by
  unfold listWFb at hw
  simp only [hL, Bool.and_eq_true] at hw
  obtain ⟨h1, h2⟩ := hw
  rw [List.all_eq_true] at h2
  have hjlt : j < L.cache.length := (List.get?_eq_some.mp hj).1
  have hx := h2 j (List.mem_range.mpr hjlt)
  simp only [hj] at hx
  cases hh : st.handles.get? hid with
  | none => simp only [hh] at hx; exact absurd hx (by simp)
  | some h =>
    simp only [hh] at hx
    cases hi : h.inner with
    | disconnected v => simp only [hi] at hx; exact absurd hx (by simp)
    | connected s k =>
      simp only [hi, Bool.and_eq_true] at hx
      obtain ⟨hs, hk⟩ := hx
      have hs' : s = L.ruleList := by simpa using hs
      have hk' : k = j := by simpa using hk
      exact ⟨h, rfl, by rw [hi, hs', hk']⟩

theorem listWFb_len (st : SheetState) (lid : Nat) (L : HList)
    (hw : listWFb st lid = true) (hL : st.lists.get? lid = some L) :
    ∃ seq, st.store.get? L.ruleList = some seq ∧ L.cache.length ≤ seq.length := by
  unfold listWFb at hw
  simp only [hL, Bool.and_eq_true] at hw
  obtain ⟨h1, _⟩ := hw
  cases hs : st.store.get? L.ruleList with
  | none => simp only [hs] at h1; exact absurd h1 (by simp)
  | some seq => simp only [hs] at h1; exact ⟨seq, rfl, by simpa using h1⟩

theorem listWFb_inj (st : SheetState) (lid : Nat) (L : HList) (j1 j2 hid : Nat)
    (hw : listWFb st lid = true) (hL : st.lists.get? lid = some L)
    (h1 : L.cache.get? j1 = some (some hid)) (h2 : L.cache.get? j2 = some (some hid)) :
    j1 = j2 := by
  obtain ⟨h, hh, hi⟩ := listWFb_slot st lid L j1 hid hw hL h1
  obtain ⟨h', hh', hi'⟩ := listWFb_slot st lid L j2 hid hw hL h2
  rw [hh] at hh'
  cases hh'
  rw [hi] at hi'
  cases hi'
  rfl

theorem cssRuleListDeleteRule_run (st : SheetState) (lid : Nat) (L : HList)
    (i hid : Nat) (h : HRule) (v : NodeVal)
    (hL : st.lists.get? lid = some L) (hci : L.cache.get? i = some (some hid))
    (hh : st.handles.get? hid = some h)
    (hdi : disconnectInner st.store h.inner = some (.disconnected v)) :
    cssRuleListDeleteRule st lid i = .ok
      { st with
        handles := shiftSlots
          (modifyAt st.handles hid
            (fun h0 => { h0 with inner := .disconnected v, parentRule := none }))
          (L.cache.drop (i + 1)) false,
        lists := st.lists.set lid { L with cache := removeAt L.cache i } } := by
  have hclen : i < L.cache.length := (List.get?_eq_some.mp hci).1
  unfold cssRuleListDeleteRule
  simp only [hL, if_pos hclen, hci, hh, hdi]

theorem delete_rule_run (st : SheetState) (sid lid : Nat) (L : HList)
    (i hid : Nat) (h : HRule) (v : NodeVal) (seq : Seq)
    (hL : st.lists.get? lid = some L) (hci : L.cache.get? i = some (some hid))
    (hh : st.handles.get? hid = some h)
    (hdi : disconnectInner st.store h.inner = some (.disconnected v))
    (hseq : st.store.get? sid = some seq) (hilen : i < seq.length) :
    delete_rule st sid (some lid) i = .ok
      { st with
        store := st.store.set sid (removeAt seq i),
        handles := shiftSlots
          (modifyAt st.handles hid
            (fun h0 => { h0 with inner := .disconnected v, parentRule := none }))
          (L.cache.drop (i + 1)) false,
        lists := st.lists.set lid { L with cache := removeAt L.cache i } } := by
  unfold delete_rule
  simp only [hseq, cssRuleListDeleteRule_run st lid L i hid h v hL hci hh hdi]
  rw [if_neg (by omega : ¬ i > seq.length), if_pos hilen]

/-- C1: deleting index `i` of a rule list with a materialized handle at `i`
disconnects that handle with a snapshot of its node and clears its parent rule
link, so its `cssText` still serializes to its pre-removal text (for every
serialization function), and a materialized handle whose Connected index was
`j > i` has its stored index decremented by one. -/
theorem delete_rule_disconnects_and_shifts (st : SheetState) (sid lid : Nat) (L : HList)
    (i hid j hid' : Nat) (seq : Seq) (sn : SNode) (v : NodeVal) (ser : NodeVal → String)
    (hL : st.lists.get? lid = some L) (hsid : L.ruleList = sid)
    (hw : listWFb st lid = true)
    (hci : L.cache.get? i = some (some hid))
    (hseq : st.store.get? sid = some seq) (hilen : i < seq.length)
    (hsn : seq.get? i = some sn)
    (hres : resolveNode st.store.length st.store sn = some v)
    (hij : i < j) (hcj : L.cache.get? j = some (some hid')) :
    (delete_rule st sid (some lid) i).map (fun st2 => handleInner st2 hid)
        = .ok (some (.disconnected v)) ∧
      (delete_rule st sid (some lid) i).map (fun st2 => handleParentRule st2 hid)
        = .ok (some none) ∧
      (delete_rule st sid (some lid) i).map (fun st2 => handleCssText ser st2 hid)
        = .ok (handleCssText ser st hid) ∧
      (delete_rule st sid (some lid) i).map (fun st2 => handleInner st2 hid')
        = .ok (some (.connected sid (j - 1))) := by
  subst hsid
  obtain ⟨h, hh, hinner⟩ := listWFb_slot st lid L i hid hw hL hci
  obtain ⟨h', hh', hinner'⟩ := listWFb_slot st lid L j hid' hw hL hcj
  have hdi : disconnectInner st.store h.inner = some (.disconnected v) := by
    rw [hinner]
    unfold disconnectInner
    simp only [hseq, hsn, hres, Option.map_some']
  have hrun := delete_rule_run st L.ruleList lid L i hid h v seq hL hci hh hdi hseq hilen
  have hne : hid' ≠ hid := by
    intro he
    subst he
    exact absurd (listWFb_inj st lid L i j hid' hw hL hci hcj) (by omega)
  have hdropnm : ∀ q, (L.cache.drop (i + 1)).get? q ≠ some (some hid) := by
    intro q hq
    rw [List.get?_drop] at hq
    have := listWFb_inj st lid L (i + 1 + q) i hid hw hL hq hci
    omega
  have hdropj : (L.cache.drop (i + 1)).get? (j - (i + 1)) = some (some hid') := by
    rw [List.get?_drop]
    rw [(by omega : i + 1 + (j - (i + 1)) = j)]
    exact hcj
  have hdropuniq : ∀ q, (L.cache.drop (i + 1)).get? q = some (some hid') → q = j - (i + 1) := by
    intro q hq
    rw [List.get?_drop] at hq
    have := listWFb_inj st lid L (i + 1 + q) j hid' hw hL hq hcj
    omega
  have hget : (shiftSlots
      (modifyAt st.handles hid
        (fun h0 => { h0 with inner := .disconnected v, parentRule := none }))
      (L.cache.drop (i + 1)) false).get? hid
      = some { h with inner := .disconnected v, parentRule := none } := by
    rw [shiftSlots_get?_not_mem _ _ _ _ hdropnm]
    rw [modifyAt_get?_self]
    rw [hh]
    rfl
  have hget' : (shiftSlots
      (modifyAt st.handles hid
        (fun h0 => { h0 with inner := .disconnected v, parentRule := none }))
      (L.cache.drop (i + 1)) false).get? hid'
      = some (bumpConnected false h') := by
    rw [shiftSlots_get?_uniq _ _ _ hid' (j - (i + 1)) hdropj hdropuniq]
    rw [modifyAt_get?_ne _ _ hne]
    rw [hh']
    rfl
  have hbump : bumpConnected false h' = { h' with inner := .connected L.ruleList (j - 1) } := by
    unfold bumpConnected
    rw [hinner']
    rfl
  refine ⟨?_, ?_, ?_, ?_⟩
  · rw [hrun]
    unfold handleInner
    simp only [Except.map, hget, Option.map_some']
  · rw [hrun]
    unfold handleParentRule
    simp only [Except.map, hget, Option.map_some']
  · rw [hrun]
    unfold handleCssText
    simp only [Except.map, hget, hh, hinner, hseq, hsn, hres, Option.map_some']
  · rw [hrun]
    unfold handleInner
    simp only [Except.map, hget', hbump, Option.map_some']

/-- Witness for C1 on the two-rule fixture: deleting index 0 disconnects handle
0 with the snapshot of `.a`, clears its parent link, keeps its `cssText`, and
handle 1 (formerly at index 1) now stores index 0. -/
theorem delete_rule_disconnects_and_shifts_witness :
    listWFb flatSt 0 = true ∧ (0 : Nat) < 2 ∧ (0 : Nat) < 1 ∧
      ((delete_rule flatSt 0 (some 0) 0).map (fun st2 => handleInner st2 0)
          = .ok (some (.disconnected (.rule (.style (".a") ("color:red"))))) ∧
        (delete_rule flatSt 0 (some 0) 0).map (fun st2 => handleParentRule st2 0)
          = .ok (some none) ∧
        (delete_rule flatSt 0 (some 0) 0).map (fun st2 => handleCssText serSample st2 0)
          = .ok (handleCssText serSample flatSt 0) ∧
        (delete_rule flatSt 0 (some 0) 0).map (fun st2 => handleInner st2 1)
          = .ok (some (.connected 0 0))) :=
  ⟨rfl, by decide, by decide,
    delete_rule_disconnects_and_shifts flatSt 0 0
      { ruleList := 0, cache := [some 0, some 1], parentRule := none }
      0 0 1 1
      [SNode.style (".a") ("color:red"), SNode.style (".b") ("color:blue")]
      (SNode.style (".a") ("color:red"))
      (.rule (.style (".a") ("color:red"))) serSample
      rfl rfl rfl rfl rfl (by decide) rfl rfl (by decide) rfl⟩

/-- Witness for C3: the first `item(0)` call on the fresh one-rule list
materializes handle 0; the second call returns the same identity and leaves the
state unchanged. -/
theorem item_identity_stable_witness :
    listItem freshListSt 0 0 = .ok (some 0, freshListStAfter) ∧
      listItem freshListStAfter 0 0 = .ok (some 0, freshListStAfter) :=
  ⟨rfl, item_identity_stable freshListSt freshListStAfter 0 0 0 rfl⟩

theorem modifyAt_length (l : List α) (i : Nat) (f : α → α) :
    (modifyAt l i f).length = l.length := by
  induction l generalizing i with
  | nil => rfl
  | cons a l ih =>
    cases i with
    | zero => rfl
    | succ n => simpa [modifyAt] using ih n

theorem cacheMentions_false (cache : List (Option Nat)) (hid : Nat)
    (hm : cacheMentions cache hid = false) :
    ∀ q, cache.get? q ≠ some (some hid) := by
  intro q hq
  have hmem : (some hid) ∈ cache := List.get?_mem hq
  unfold cacheMentions at hm
  rw [List.any_eq_false] at hm
  have := hm (some hid) hmem
  simp at this

/-- C5 (amended): removing a rule mutates only the handles referenced from the
deleted list's own identity cache; a handle not mentioned there — in
particular every handle materialized for a descendant rule list of a removed
grouping rule — keeps its exact state, and thus remains Connected. -/
theorem delete_rule_leaves_descendant_handles_untouched (st : SheetState)
    (sid lid : Nat) (L : HList) (i hid hid2 : Nat) (h : HRule) (v : NodeVal) (seq : Seq)
    (hL : st.lists.get? lid = some L)
    (hci : L.cache.get? i = some (some hid))
    (hh : st.handles.get? hid = some h)
    (hdi : disconnectInner st.store h.inner = some (.disconnected v))
    (hseq : st.store.get? sid = some seq) (hilen : i < seq.length)
    (hm : cacheMentions L.cache hid2 = false) :
    (delete_rule st sid (some lid) i).map (fun st2 => st2.handles.get? hid2)
        = .ok (st.handles.get? hid2) ∧
      (delete_rule st sid (some lid) i).map (fun st2 => parentStyleSheetNonNull st2 hid2)
        = .ok (parentStyleSheetNonNull st hid2) := by
  have hrun := delete_rule_run st sid lid L i hid h v seq hL hci hh hdi hseq hilen
  have hnm := cacheMentions_false L.cache hid2 hm
  have hne : hid2 ≠ hid := by
    intro he
    subst he
    exact hnm i hci
  have hget : (shiftSlots
      (modifyAt st.handles hid
        (fun h0 => { h0 with inner := .disconnected v, parentRule := none }))
      (L.cache.drop (i + 1)) false).get? hid2 = st.handles.get? hid2 := by
    rw [shiftSlots_get?_not_mem]
    · exact modifyAt_get?_ne _ _ hne
    · intro q hq
      rw [List.get?_drop] at hq
      exact hnm (i + 1 + q) hq
  constructor
  · rw [hrun]
    simp only [Except.map, hget]
  · rw [hrun]
    unfold parentStyleSheetNonNull
    simp only [Except.map, hget]

/-- Witness for C5 (amended) on the nested fixture: deleting the grouping rule
leaves the nested style handle's state byte-for-byte unchanged (still
Connected). -/
theorem delete_rule_leaves_descendant_handles_untouched_witness :
    cacheMentions [some 0] 1 = false ∧
      ((delete_rule nestedSt 1 (some 0) 0).map (fun st2 => st2.handles.get? 1)
          = .ok (nestedSt.handles.get? 1) ∧
        (delete_rule nestedSt 1 (some 0) 0).map (fun st2 => parentStyleSheetNonNull st2 1)
          = .ok (parentStyleSheetNonNull nestedSt 1)) :=
  ⟨rfl,
    delete_rule_leaves_descendant_handles_untouched nestedSt 1 0
      { ruleList := 1, cache := [some 0], parentRule := none }
      0 0 1
      { inner := .connected 1 0, parentRule := none, childList := some 1 }
      (.rule (.media ("screen") [.style (".a") ("color:red")]))
      [SNode.media ("screen") 0]
      rfl rfl rfl rfl rfl (by decide) rfl⟩

theorem resolveNode_of_resolveSN (fuel : Nat) (store : Store) (sn : SNode) (r : DRule)
    (h : resolveSN fuel store sn = some r) :
    resolveNode fuel store sn = some (.rule r) := by
  cases sn with
  | keyframe k => exact absurd h (by cases fuel <;> simp [resolveSN])
  | style s d => unfold resolveNode; rw [h]; rfl
  | media c cid => unfold resolveNode; rw [h]; rfl
  | supports c cid => unfold resolveNode; rw [h]; rfl
  | keyframes n bid => unfold resolveNode; rw [h]; rfl
  | other p => unfold resolveNode; rw [h]; rfl

theorem cacheResolvable_elim (st : SheetState) (sid : Nat) (cache : List (Option Nat))
    (hcr : cacheResolvable st sid cache = true) (seq : Seq)
    (hseq : st.store.get? sid = some seq) :
    ∀ q hid, cache.get? q = some (some hid) →
      ∃ sn r, seq.get? q = some sn ∧ resolveSN st.store.length st.store sn = some r := by
  intro q hid hq
  unfold cacheResolvable at hcr
  rw [List.all_eq_true] at hcr
  have hqlt : q < cache.length := (List.get?_eq_some.mp hq).1
  have hx := hcr q (List.mem_range.mpr hqlt)
  simp only [hq] at hx
  unfold slotResolvable at hx
  rw [hseq] at hx
  simp only [Option.bind] at hx
  cases hsn : seq.get? q with
  | none => rw [hsn] at hx; simp at hx
  | some sn =>
    rw [hsn] at hx
    simp only [Option.bind] at hx
    cases hr : resolveSN st.store.length st.store sn with
    | none => rw [hr] at hx; simp at hx
    | some r => exact ⟨sn, r, rfl, hr⟩

theorem disconnectSlots_spec (slots : List (Option Nat)) :
    ∀ (st : SheetState) (i0 : Nat) (seqTop : Seq),
      st.store.get? st.topSeq = some seqTop →
      (∀ q hid, slots.get? q = some (some hid) →
        ∃ sn r, seqTop.get? (i0 + q) = some sn ∧
          resolveSN st.store.length st.store sn = some r) →
      ∃ st', disconnectSlots st slots i0 = .ok st' ∧
        st'.store = st.store ∧ st'.lists = st.lists ∧ st'.topSeq = st.topSeq ∧
        st'.topList = st.topList ∧
        (∀ hid, (∀ q, slots.get? q ≠ some (some hid)) →
          st'.handles.get? hid = st.handles.get? hid) ∧
        (∀ hid p sn r, slots.get? p = some (some hid) →
          (∀ q, slots.get? q = some (some hid) → q = p) →
          seqTop.get? (i0 + p) = some sn →
          resolveSN st.store.length st.store sn = some r →
          st'.handles.get? hid = (st.handles.get? hid).map
            (fun h => { h with inner := .disconnected (.rule r) })) := by
  induction slots with
  | nil =>
    intro st i0 seqTop hseq hres
    refine ⟨st, rfl, rfl, rfl, rfl, rfl, fun _ _ => rfl, ?_⟩
    intro hid p sn r hp
    simp at hp
  | cons o rest ih =>
    intro st i0 seqTop hseq hres
    cases o with
    | none =>
      have hres' : ∀ q hid, rest.get? q = some (some hid) →
          ∃ sn r, seqTop.get? (i0 + 1 + q) = some sn ∧
            resolveSN st.store.length st.store sn = some r := by
        intro q hid hq
        have := hres (q + 1) hid (by simpa using hq)
        simpa [(by omega : i0 + (q + 1) = i0 + 1 + q)] using this
      obtain ⟨st', hd, hstore, hlists, hts, htl, hnm, hmem⟩ := ih st (i0 + 1) seqTop hseq hres'
      refine ⟨st', ?_, hstore, hlists, hts, htl, ?_, ?_⟩
      · rw [disconnectSlots]
        exact hd
      · intro hid hnone
        exact hnm hid (fun q => hnone (q + 1))
      · intro hid p sn r hp huniq hsn hr
        cases p with
        | zero => simp at hp
        | succ p' =>
          refine hmem hid p' sn r (by simpa using hp) ?_ ?_ hr
          · intro q hq
            have := huniq (q + 1) (by simpa using hq)
            omega
          · rw [(by omega : i0 + 1 + p' = i0 + (p' + 1))]
            exact hsn
    | some hid0 =>
      obtain ⟨sn0, r0, hsn0, hr0⟩ := hres 0 hid0 rfl
      rw [(by omega : i0 + 0 = i0)] at hsn0
      have hres1 : ∀ q hid, rest.get? q = some (some hid) →
          ∃ sn r, seqTop.get? (i0 + 1 + q) = some sn ∧
            resolveSN st.store.length st.store sn = some r := by
        intro q hid hq
        have := hres (q + 1) hid (by simpa using hq)
        simpa [(by omega : i0 + (q + 1) = i0 + 1 + q)] using this
      obtain ⟨st', hd, hstore, hlists, hts, htl, hnm, hmem⟩ :=
        ih { st with handles := (modifyAt st.handles hid0
              (fun h => { h with inner := .disconnected (.rule r0) })) }
          (i0 + 1) seqTop hseq hres1
      refine ⟨st', ?_, hstore, hlists, hts, htl, ?_, ?_⟩
      · rw [disconnectSlots]
        simp only [hseq, hsn0, hr0]
        exact hd
      · intro hid hnone
        have hne : hid0 ≠ hid := by
          intro he
          exact hnone 0 (by simp [he])
        rw [hnm hid (fun q => hnone (q + 1))]
        exact modifyAt_get?_ne _ _ (Ne.symm hne)
      · intro hid p sn r hp huniq hsn hr
        cases p with
        | zero =>
          have hhid : hid0 = hid := by simpa using hp
          subst hhid
          rw [(by omega : i0 + 0 = i0)] at hsn
          rw [hsn0] at hsn
          cases hsn
          rw [hr0] at hr
          cases hr
          have hnotrest : ∀ q, rest.get? q ≠ some (some hid0) := by
            intro q hq
            have := huniq (q + 1) (by simpa using hq)
            omega
          rw [hnm hid0 hnotrest]
          exact modifyAt_get?_self st.handles hid0 _
        | succ p' =>
          have hne : hid0 ≠ hid := by
            intro he
            subst he
            have := huniq 0 rfl
            omega
          have := hmem hid p' sn r (by simpa using hp)
            (fun q hq => by
              have := huniq (q + 1) (by simpa using hq)
              omega)
            (by
              rw [(by omega : i0 + 1 + p' = i0 + (p' + 1))]
              exact hsn)
            hr
          rw [this]
          rw [modifyAt_get?_ne _ _ (Ne.symm hne)]

theorem allocGoList_snd_length (rs : List DRule) :
    ∀ base, (allocRule.goList base rs).2.length = rs.length := by
  induction rs with
  | nil => intro base; rfl
  | cons r rest ih =>
    intro base
    simp only [allocRule.goList, List.length_cons]
    rw [ih]

theorem allocRuleList_snd_length (base : Nat) (rs : List DRule) :
    (allocRuleList base rs).2.length = rs.length :=
  allocGoList_snd_length rs base

/-- C4 (amended): after a successful `replaceSync`, every handle cached in the
top-level rule list is Disconnected with its pre-replace snapshot — its
`cssText` still serializes to the pre-replace text and `parentStyleSheet` is
null — and the new top-level `cssRules.length` is the number of parsed rules;
but a handle not cached in the top-level list (one materialized from a nested
grouping or keyframes rule list) keeps its exact pre-call state and in
particular still reports a non-null `parentStyleSheet`. -/
theorem replace_sync_disconnects_top_level (eng : Engine) (st : SheetState)
    (code : String) (rs : List DRule) (lid : Nat) (L : HList)
    (j hid hid2 : Nat) (sn : SNode) (r : DRule) (ser : NodeVal → String) (seqTop : Seq)
    (htop : st.topList = some lid)
    (hL : st.lists.get? lid = some L)
    (hrl : L.ruleList = st.topSeq)
    (hw : listWFb st lid = true)
    (hseq : st.store.get? st.topSeq = some seqTop)
    (hcr : cacheResolvable st st.topSeq L.cache = true)
    (hparse : eng.parseSheet code = some rs)
    (hcj : L.cache.get? j = some (some hid))
    (hsn : seqTop.get? j = some sn)
    (hr : resolveSN st.store.length st.store sn = some r)
    (hm : cacheMentions L.cache hid2 = false) :
    (replaceSync eng st code).map (fun st2 => handleInner st2 hid)
        = .ok (some (.disconnected (.rule r))) ∧
      (replaceSync eng st code).map (fun st2 => parentStyleSheetNonNull st2 hid)
        = .ok (some false) ∧
      (replaceSync eng st code).map (fun st2 => handleCssText ser st2 hid)
        = .ok (handleCssText ser st hid) ∧
      (replaceSync eng st code).map (fun st2 => st2.handles.get? hid2)
        = .ok (st.handles.get? hid2) ∧
      (replaceSync eng st code).map (fun st2 => (st2.store.get? st2.topSeq).map List.length)
        = .ok (some rs.length) := by
  have hresall := cacheResolvable_elim st st.topSeq L.cache hcr seqTop hseq
  have hres0 : ∀ q hidq, L.cache.get? q = some (some hidq) →
      ∃ snq rq, seqTop.get? (0 + q) = some snq ∧
        resolveSN st.store.length st.store snq = some rq := by
    intro q hidq hq
    simpa using hresall q hidq hq
  obtain ⟨st1, hd, hstore, hlists, hts, htl, hnm, hmem⟩ :=
    disconnectSlots_spec L.cache st 0 seqTop hseq hres0
  have huniq : ∀ q, L.cache.get? q = some (some hid) → q = j :=
    fun q hq => listWFb_inj st lid L q j hid hw hL hq hcj
  have hj0 : seqTop.get? (0 + j) = some sn := by simpa using hsn
  obtain ⟨h, hh, hinner⟩ := listWFb_slot st lid L j hid hw hL hcj
  have hhid1 : st1.handles.get? hid = some { h with inner := .disconnected (.rule r) } := by
    rw [hmem hid j sn r hcj huniq hj0 hr, hh]
    rfl
  have hhid2 : st1.handles.get? hid2 = st.handles.get? hid2 :=
    hnm hid2 (cacheMentions_false L.cache hid2 hm)
  have hrun : replaceSync eng st code = .ok
      { st1 with store := ((st1.store ++ (allocRuleList st1.store.length rs).1).set
          st1.topSeq (allocRuleList st1.store.length rs).2) } := by
    unfold replaceSync
    simp only [htop, hL, hd]
    unfold replaceFinish
    simp only [hparse]
  have hinner' : h.inner = .connected st.topSeq j := by rw [hinner, hrl]
  refine ⟨?_, ?_, ?_, ?_, ?_⟩
  · rw [hrun]
    unfold handleInner
    simp only [Except.map, hhid1, Option.map_some']
  · rw [hrun]
    unfold parentStyleSheetNonNull
    simp only [Except.map, hhid1, Option.map_some']
  · rw [hrun]
    unfold handleCssText
    simp only [Except.map, hhid1, hh, hinner', hseq, hsn,
      resolveNode_of_resolveSN st.store.length st.store sn r hr, Option.map_some']
  · rw [hrun]
    simp only [Except.map, hhid2]
  · rw [hrun]
    simp only [Except.map]
    have hlt : st.topSeq < st.store.length := (List.get?_eq_some.mp hseq).1
    have hlt2 : st1.topSeq < (st1.store ++ (allocRuleList st1.store.length rs).1).length := by
      rw [hts, hstore]
      simp only [List.length_append]
      omega
    rw [get?_set_lt _ _ _ hlt2]
    simp only [Option.map_some']
    rw [allocRuleList_snd_length]

/-- Witness for C4 (amended) on the nested fixture: after `replaceSync` the
top-level media handle 0 is disconnected with its pre-replace snapshot and
serialization, the nested style handle 1 is untouched, and the new top-level
length is 1. -/
theorem replace_sync_disconnects_top_level_witness :
    listWFb nestedSt 0 = true ∧
      cacheResolvable nestedSt nestedSt.topSeq [some 0] = true ∧
      ((replaceSync engAccept nestedSt ("q")).map (fun st2 => handleInner st2 0)
          = .ok (some (.disconnected
              (.rule (.media ("screen") [.style (".a") ("color:red")])))) ∧
        (replaceSync engAccept nestedSt ("q")).map (fun st2 => parentStyleSheetNonNull st2 0)
          = .ok (some false) ∧
        (replaceSync engAccept nestedSt ("q")).map (fun st2 => handleCssText serSample st2 0)
          = .ok (handleCssText serSample nestedSt 0) ∧
        (replaceSync engAccept nestedSt ("q")).map (fun st2 => st2.handles.get? 1)
          = .ok (nestedSt.handles.get? 1) ∧
        (replaceSync engAccept nestedSt ("q")).map
            (fun st2 => (st2.store.get? st2.topSeq).map List.length)
          = .ok (some 1)) :=
  ⟨rfl, rfl,
    replace_sync_disconnects_top_level engAccept nestedSt ("q")
      [.style (".z") ("color:black")] 0
      { ruleList := 1, cache := [some 0], parentRule := none }
      0 0 1 (SNode.media ("screen") 0)
      (.media ("screen") [.style (".a") ("color:red")]) serSample
      [SNode.media ("screen") 0]
      rfl rfl rfl rfl rfl rfl rfl rfl rfl rfl rfl⟩

/-- C2: on a two-rule stylesheet whose identity cache holds a single slot
(only `item(0)` was ever called), `insertRule(text, 2)` — a legal index, equal
to the list length — panics: the shift loop slices the cache
`&rules.rules[2..]` past its length, instead of completing and shifting the
handles with index `≥ 2` (there are none). -/
theorem insert_rule_cache_slice_panics :
    sheetInsertRule engAccept shortCacheSt (".c") (some 2) = .error .panic := rfl

/-- C6: `replaceSync` of a text the engine rejects calls `.unwrap()` on the
parse result and panics, instead of surfacing a SyntaxError and leaving the
tree unchanged (the previously materialized handles are in fact disconnected
before the parse is even attempted). -/
theorem replace_sync_parse_failure_panics :
    replaceSync engReject flatSt ("bad") = .error .panic := rfl

/-- C7: `insertRule` with an in-bounds index and a rule text the engine rejects
calls `.unwrap()` on the parse result and panics instead of surfacing a
SyntaxError. -/
theorem insert_rule_parse_failure_panics :
    sheetInsertRule engReject flatSt (".c") (some 0) = .error .panic := rfl

/-- C8: on a one-rule stylesheet, `deleteRule(1)` — the index equal to the
length, which the claim says must fail with an out-of-bounds error — passes
the `index > len` guard and panics inside `Vec::remove`; `insertRule` at index
2 is correctly rejected with the out-of-bounds error. -/
theorem delete_rule_at_length_panics :
    sheetDeleteRule oneRuleSt 1 = .error .panic ∧
      sheetInsertRule engAccept oneRuleSt (".c") (some 2)
        = .error (.jsError ("Index out of bounds")) :=
  ⟨rfl, rfl⟩

/-- C4, counterexample: in the nested fixture the style handle (id 1) was
materialized from the media rule's nested rule list before the call, yet after
a successful `replaceSync` it still reports a non-null `parentStyleSheet` —
only the top-level cache is walked, so the claim's "including handles
materialized from nested grouping/keyframes rule lists" fails. -/
theorem replace_sync_nested_handle_not_disconnected :
    (replaceSync engAccept nestedSt ("q")).map
        (fun st' => parentStyleSheetNonNull st' 1) = .ok (some true) ∧
      (replaceSync engAccept nestedSt ("q")).map
        (fun st' => handleInner st' 1) = .ok (some (.connected 0 0)) :=
  ⟨rfl, rfl⟩

/-- C5, counterexample: deleting the `@media` grouping rule at top-level index
0 leaves the handle materialized for its nested rule list (id 1) in the
`Connected` state — the removal never recurses into descendant caches, so a
handle does remain Connected to a view whose owning rule no longer exists in
the tree. -/
theorem delete_grouping_nested_handle_still_connected :
    (sheetDeleteRule nestedSt 0).map (fun st' => handleInner st' 1)
        = .ok (some (.connected 0 0)) ∧
      (sheetDeleteRule nestedSt 0).map (fun st' => parentStyleSheetNonNull st' 1)
        = .ok (some true) :=
  ⟨rfl, rfl⟩

theorem extractKeyframes_map (kfs : List DKeyframe) :
    extractKeyframes (kfs.map SNode.keyframe) = some kfs := by
  induction kfs with
  | nil => rfl
  | cons k rest ih => simp [extractKeyframes, ih]

theorem position_eq_some (p : α → Bool) (l : List α) (i : Nat) (a : α)
    (ha : l.get? i = some a) (hpa : p a = true)
    (hbefore : ∀ q b, q < i → l.get? q = some b → p b = false) :
    position p l = some i := by
  induction l generalizing i with
  | nil => simp at ha
  | cons x xs ih =>
    cases i with
    | zero =>
      have hxa : x = a := by simpa using ha
      subst hxa
      simp [position, hpa]
    | succ n =>
      have hx : p x = false := hbefore 0 x (Nat.succ_pos n) rfl
      have hget : xs.get? n = some a := by simpa using ha
      have hbefore' : ∀ q b, q < n → xs.get? q = some b → p b = false := by
        intro q b hq hb
        exact hbefore (q + 1) b (by omega) (by simpa using hb)
      simp [position, hx, ih n hget hbefore']

theorem position_reverse_of_last (p : α → Bool) (l : List α) (j : Nat) (a : α)
    (hj : l.get? j = some a) (hpa : p a = true)
    (hafter : ∀ q b, j < q → l.get? q = some b → p b = false) :
    position p l.reverse = some (l.length - 1 - j) := by
  have hjlt : j < l.length := (List.get?_eq_some.mp hj).1
  apply position_eq_some p l.reverse (l.length - 1 - j) a
  · rw [List.get?_reverse (by omega)]
    rw [(by omega : l.length - 1 - (l.length - 1 - j) = j)]
    exact hj
  · exact hpa
  · intro q b hq hb
    have hqlt : q < l.length := by
      have := (List.get?_eq_some.mp hb).1
      simpa using this
    rw [List.get?_reverse hqlt] at hb
    exact hafter (l.length - 1 - q) b (by omega) hb

theorem isLastMatch_elim (kfs : List DKeyframe) (parsed : List Nat) (j : Nat)
    (h : isLastMatch kfs parsed j = true) :
    (∃ kf, kfs.get? j = some kf ∧ (kf.selectors == parsed) = true) ∧
      ∀ q kf2, j < q → kfs.get? q = some kf2 → (kf2.selectors == parsed) = false := by
  unfold isLastMatch at h
  rw [Bool.and_eq_true] at h
  obtain ⟨h1, h2⟩ := h
  constructor
  · cases hj : kfs.get? j with
    | none => rw [hj] at h1; exact absurd h1 (by simp)
    | some kf => rw [hj] at h1; exact ⟨kf, rfl, h1⟩
  · intro q kf2 hq hg
    rw [List.all_eq_true] at h2
    have hqlt : q < kfs.length := (List.get?_eq_some.mp hg).1
    have hx := h2 q (List.mem_range.mpr hqlt)
    rw [Bool.or_eq_true] at hx
    cases hx with
    | inl hle => exact absurd (by simpa using hle) (by omega)
    | inr hy =>
      rw [hg] at hy
      simpa using hy

/-- On a well-formed list whose backing vector has an element at `j`, `item(j)`
returns a handle that is Connected to this list's backing vector at `j`. -/
theorem listItem_connected_at (st : SheetState) (lid j : Nat) (L : HList) (body : Seq)
    (hL : st.lists.get? lid = some L)
    (hwf : listWFb st lid = true)
    (hbody : st.store.get? L.ruleList = some body)
    (hj : j < body.length) :
    ∃ hid2 st2, listItem st lid j = .ok (some hid2, st2) ∧
      handleInner st2 hid2 = some (.connected L.ruleList j) := by
  have hsome : ∃ sn, body.get? j = some sn := by
    cases hsn : body.get? j with
    | none => rw [List.get?_eq_none] at hsn; omega
    | some sn => exact ⟨sn, rfl⟩
  obtain ⟨sn, hsn⟩ := hsome
  have hfresh : listItemFresh st lid L j
      = .ok (some st.handles.length, listItemFreshState st lid L j) := by
    unfold listItemFresh
    simp only [hbody, hsn]
  have hconn : handleInner (listItemFreshState st lid L j) st.handles.length
      = some (.connected L.ruleList j) := by
    simp [handleInner, listItemFreshState, List.get?_concat_length]
  cases hc : L.cache.get? j with
  | none =>
    refine ⟨st.handles.length, listItemFreshState st lid L j, ?_, hconn⟩
    unfold listItem
    simp only [hL, hc]
    exact hfresh
  | some o =>
    cases o with
    | none =>
      refine ⟨st.handles.length, listItemFreshState st lid L j, ?_, hconn⟩
      unfold listItem
      simp only [hL, hc]
      exact hfresh
    | some hid2 =>
      obtain ⟨h2, hh2, hi2⟩ := listWFb_slot st lid L j hid2 hwf hL hc
      refine ⟨hid2, st, ?_, ?_⟩
      · unfold listItem
        simp only [hL, hc]
      · unfold handleInner
        rw [hh2]
        simp [hi2]

/-- C9: `findRule` on a keyframes rule returns JS `null` when the selector text
does not parse, and for a parseable selector matched by several keyframes it
returns the handle of the last (highest-index) keyframe whose selector list
equals the parsed selectors. -/
theorem find_rule_unparseable_and_last_match (eng : Engine) (st : SheetState)
    (hid : Nat) (badSel goodSel : String) (parsed : List Nat) (j : Nat)
    (h : HRule) (s k bid : Nat) (kname : String) (seq : Seq) (kfs : List DKeyframe)
    (hh : st.handles.get? hid = some h)
    (hinner : h.inner = .connected s k)
    (hs : st.store.get? s = some seq)
    (hk : seq.get? k = some (.keyframes kname bid))
    (hb : st.store.get? bid = some (kfs.map SNode.keyframe))
    (hchild : childStateOk st h bid)
    (hbad : eng.parseKeyframeSelectors badSel = none)
    (hgood : eng.parseKeyframeSelectors goodSel = some parsed)
    (hlast : isLastMatch kfs parsed j = true) :
    find_rule eng st hid badSel = .ok (none, st) ∧
      findRuleObs eng st hid goodSel = .ok (some (some (.connected bid j))) := by
  obtain ⟨⟨kf, hkf, hkfp⟩, hafter⟩ := isLastMatch_elim kfs parsed j hlast
  have hjlt : j < kfs.length := (List.get?_eq_some.mp hkf).1
  constructor
  · unfold find_rule find_index
    simp only [hbad]
  · have hkeyframes : keyframesOf st h.inner = .ok kfs := by
      rw [hinner]
      unfold keyframesOf
      simp only [hs, hk, hb, extractKeyframes_map]
    have hpos : position (fun kf2 => kf2.selectors == parsed) kfs.reverse
        = some (kfs.length - 1 - j) := by
      exact position_reverse_of_last _ kfs j kf hkf hkfp
        (fun q b hq hbq => hafter q b hq hbq)
    have hfind : find_index eng st hid goodSel = .ok (some j) := by
      unfold find_index
      simp only [hgood, hh, hkeyframes, hpos]
      rw [(by omega : kfs.length - 1 - (kfs.length - 1 - j) = j)]
    have hblen : (kfs.map SNode.keyframe).length = kfs.length := by simp
    unfold findRuleObs find_rule
    unfold childStateOk at hchild
    cases hcl : h.childList with
    | some lid =>
      rw [hcl] at hchild
      obtain ⟨L, hL, hrl, hwf⟩ := hchild
      have hbody : st.store.get? L.ruleList = some (kfs.map SNode.keyframe) := by
        rw [hrl]
        exact hb
      obtain ⟨hid2, st2, hitem, hconn⟩ :=
        listItem_connected_at st lid j L (kfs.map SNode.keyframe) hL hwf hbody
          (by omega)
      have hcss : ruleCssRules st hid = .ok (lid, st) := by
        unfold ruleCssRules
        simp only [hh, hcl]
      simp only [hfind, hcss, hitem, hconn, hrl]
    | none =>
      have hcss : ruleCssRules st hid = .ok (st.lists.length,
          { st with
            lists := st.lists ++ [{ ruleList := bid, cache := [], parentRule := some hid }],
            handles := modifyAt st.handles hid
              (fun h0 => { h0 with childList := some st.lists.length }) }) := by
        unfold ruleCssRules
        simp only [hh, hcl, hinner, hs, hk]
        rfl
      have hL2 : ({ st with
          lists := st.lists ++ [{ ruleList := bid, cache := [], parentRule := some hid }],
          handles := modifyAt st.handles hid
            (fun h0 => { h0 with childList := some st.lists.length }) } :
            SheetState).lists.get? st.lists.length
          = some { ruleList := bid, cache := [], parentRule := some hid } :=
        List.get?_concat_length _ _
      have hwf2 : listWFb
          { st with
            lists := st.lists ++ [{ ruleList := bid, cache := [], parentRule := some hid }],
            handles := modifyAt st.handles hid
              (fun h0 => { h0 with childList := some st.lists.length }) }
          st.lists.length = true := by
        unfold listWFb
        simp only [hL2, hb]
        simp
      obtain ⟨hid2, st2, hitem, hconn⟩ :=
        listItem_connected_at _ st.lists.length j
          { ruleList := bid, cache := [], parentRule := some hid }
          (kfs.map SNode.keyframe) hL2 hwf2 hb (by omega)
      simp only [hfind, hcss, hitem, hconn]

/-- Witness for C9 on the keyframes fixture: `findRule` with an unparseable
selector returns null; with `50%` (two keyframes match, at indices 0 and 1) it
returns the handle Connected to the keyframes body at index 1 — the one
appended last. -/
theorem find_rule_unparseable_and_last_match_witness :
    engKeyframes.parseKeyframeSelectors ("bad") = none ∧
      engKeyframes.parseKeyframeSelectors ("50%") = some [50] ∧
      isLastMatch kfList [50] 1 = true ∧
      (find_rule engKeyframes kfSt 0 ("bad") = .ok (none, kfSt) ∧
        findRuleObs engKeyframes kfSt 0 ("50%") = .ok (some (some (.connected 0 1)))) :=
  ⟨by decide, by decide, by decide,
    find_rule_unparseable_and_last_match engKeyframes kfSt 0 ("bad") ("50%") [50] 1
      { inner := .connected 1 0, parentRule := none, childList := none }
      1 0 0 ("anim") [SNode.keyframes ("anim") 0] kfList
      rfl rfl rfl rfl rfl trivial (by decide) (by decide) (by decide)⟩

end CssOm
